import Mathlib

/-!
Verification of `botkit-storage-mongo` (src/index.js): a shallow embedding of
the dot-path flattener `toDot`, the zone store operations `save` / `update` /
`insert` built by `getStorage`, the history extension (`addToHistory`,
`getHistoryForUser`), and the factory function `module.exports`, together with
theorems about them.

JavaScript values are modelled by the inductive type `Val`; thrown JS
exceptions by `JsError`. The backing MongoDB driver is an external
collaborator of the repository (explicitly out of the spec's scope), so its
operations used by the code — `findOneAndUpdate` with a `$set` update document
and upsert, and `find` with an exact-match filter plus sort/limit options —
are modelled here from MongoDB's documented semantics, over a collection
represented as a list of documents.
-/

namespace BotkitMongo

/-- A JavaScript (JSON-like) value: null, number, string, boolean, array, or
plain object. A plain object is an ordered list of string-keyed fields; in
any value denoting a real JS object the keys are unique. -/
inductive Val : Type where
  | vNull : Val
  | vNum : Int → Val
  | vStr : String → Val
  | vBool : Bool → Val
  | vArr : List Val → Val
  | vObj : List (String × Val) → Val
deriving Repr

mutual

/-- Structural equality of JS values (hand-rolled because `deriving
DecidableEq` does not handle the nested inductive). -/
def beqVal : Val → Val → Bool
  | .vNull, .vNull => true
  | .vNum a, .vNum b => a == b
  | .vStr a, .vStr b => a == b
  | .vBool a, .vBool b => a == b
  | .vArr xs, .vArr ys => beqValList xs ys
  | .vObj fs, .vObj gs => beqValFields fs gs
  | _, _ => false

/-- Elementwise equality of value lists. -/
def beqValList : List Val → List Val → Bool
  | [], [] => true
  | x :: xs, y :: ys => beqVal x y && beqValList xs ys
  | _, _ => false

/-- Elementwise equality of field lists. -/
def beqValFields : List (String × Val) → List (String × Val) → Bool
  | [], [] => true
  | (k, v) :: fs, (l, w) :: gs => k == l && beqVal v w && beqValFields fs gs
  | _, _ => false

end

mutual

theorem beqVal_iff : ∀ a b : Val, beqVal a b = true ↔ a = b
  | a, b => by
    cases a <;> cases b <;> simp only [beqVal] <;>
      simp_all [beqVal_iff, beqValList_iff, beqValFields_iff]

theorem beqValList_iff : ∀ xs ys : List Val, beqValList xs ys = true ↔ xs = ys
  | [], [] => by simp [beqValList]
  | [], _ :: _ => by simp [beqValList]
  | _ :: _, [] => by simp [beqValList]
  | x :: xs, y :: ys => by
    simp [beqValList, beqVal_iff x y, beqValList_iff xs ys]

theorem beqValFields_iff :
    ∀ fs gs : List (String × Val), beqValFields fs gs = true ↔ fs = gs
  | [], [] => by simp [beqValFields]
  | [], _ :: _ => by simp [beqValFields]
  | _ :: _, [] => by simp [beqValFields]
  | (k, v) :: fs, (l, w) :: gs => by
    simp [beqValFields, beqVal_iff v w, beqValFields_iff fs gs]

end

instance : DecidableEq Val := fun a b => decidable_of_iff _ (beqVal_iff a b)

/-- A thrown JS exception: `new Error(msg)`, or a runtime `TypeError` (such as
reading `.length` of `undefined`, or `Object.keys(null)`). -/
inductive JsError : Type where
  | error : String → JsError
  | typeError : JsError
deriving DecidableEq, Repr

/-- lodash `_.isPlainObject`: true exactly for plain objects (not arrays, not
null, not primitives). -/
def isPlainObject : Val → Bool
  | .vObj _ => true
  | _ => false

/-- JS `typeof v === 'object'`: true for plain objects, arrays, and (a JS
quirk) for `null`; false for numbers, strings, booleans. -/
def jsTypeofObject : Val → Bool
  | .vObj _ => true
  | .vArr _ => true
  | .vNull => true
  | _ => false

/-- JS property assignment `m[k] = v` on an object: overwrites the value of an
existing key in place (keeping insertion order), otherwise appends the key. -/
def setKey (m : List (String × Val)) (k : String) (v : Val) : List (String × Val) :=
  if m.any (fun p => p.1 = k) then
    m.map (fun p => if p.1 = k then (k, v) else p)
  else
    m ++ [(k, v)]

/-- JS `Object.assign(m, src)`: assign every key of `src` into `m`, in order. -/
def assignAll (m src : List (String × Val)) : List (String × Val) :=
  src.foldl (fun acc p => setKey acc p.1 p.2) m

/-- Property read `fs[k]` on an object's field list (first match). -/
def lookupKey (fs : List (String × Val)) (k : String) : Option Val :=
  (fs.find? (fun p => p.1 = k)).map (fun p => p.2)

/-- Property read on a value; `none` on non-objects. -/
def vLookup : Val → String → Option Val
  | .vObj fs, k => lookupKey fs k
  | _, _ => none

/-- JS `Object.keys` enumeration of an array: index strings `"0"`, `"1"`, …
paired with the elements. -/
def arrFields (xs : List Val) : List (String × Val) :=
  (List.range xs.length).zip xs |>.map (fun p => (toString p.1, p.2))

/-- Loop body of `toDot` (src/index.js lines 116-126), run with the effective
string prefix `pre` (already ending in the separator, or empty) and the
accumulated `iteration` object `acc`: for each key in order, if the value is a
plain object recurse (the recursive call receives prefix `pre + k`, which its
own entry code turns into `pre + k + div`) and `Object.assign` the result into
`acc`; otherwise assign the value as a leaf under `pre + k`. -/
def toDotObj (div pre : String) :
    List (String × Val) → List (String × Val) → List (String × Val)
  | [], acc => acc
  | (k, .vObj gs) :: rest, acc =>
      toDotObj div pre rest (assignAll acc (toDotObj div (pre ++ k ++ div) gs []))
  | (k, v) :: rest, acc =>
      toDotObj div pre rest (setKey acc (pre ++ k) v)
termination_by fields _ => sizeOf fields

/-- Effective prefix computed at the top of `toDot` (src/index.js lines
110-114): the JS check is the loose `pre != null`, so `undefined` / `null`
(here `none`) give the empty prefix, while any string — including the empty
string — gets the separator appended. -/
def effectivePre (pre : Option String) (div : String) : String :=
  match pre with
  | some p => p ++ div
  | none => ""

/-- Embedding of `toDot(obj, div = '.', pre)` (src/index.js lines 105-127):
throws `Error('toDot requires a valid object')` when `typeof obj !== 'object'`
(numbers, strings, booleans); for `null` the `typeof` check passes but
`Object.keys(null)` throws a `TypeError`; arrays pass the `typeof` check and
are enumerated by index; plain objects are flattened into dot-joined leaf
paths. -/
def toDot (obj : Val) (div : String) (pre : Option String) :
    Except JsError (List (String × Val)) :=
  if jsTypeofObject obj = false then
    .error (.error "toDot requires a valid object")
  else
    match obj with
    | .vObj fs => .ok (toDotObj div (effectivePre pre div) fs [])
    | .vArr xs => .ok (toDotObj div (effectivePre pre div) (arrFields xs) [])
    | _ => .error .typeError

/-- Splitting of a character list at every occurrence of `c` (tail of the
`splitDot` model of MongoDB field-path parsing). -/
def splitOnCharAux (c : Char) : List Char → List Char → List (List Char)
  | [], acc => [acc.reverse]
  | x :: xs, acc =>
    if x = c then acc.reverse :: splitOnCharAux c xs []
    else splitOnCharAux c xs (x :: acc)

/-- Modelled from MongoDB's documented update semantics: a field name in an
update document is interpreted as a dot-separated path. Always returns a
nonempty list. -/
def splitDot (s : String) : List String :=
  (splitOnCharAux '.' s.data []).map (fun cs => String.mk cs)

/-- Child document selected while walking a `$set` path: the existing value
when it is a document, otherwise a fresh empty document (MongoDB creates
intermediate documents for missing path segments; an existing non-document
intermediate makes the real server error out, a case none of the verified
properties exercises). -/
def childFor (fs : List (String × Val)) (k : String) : Val :=
  match lookupKey fs k with
  | some c => if isPlainObject c then c else .vObj []
  | none => .vObj []

/-- Modelled from MongoDB's documented `$set` semantics: set the value at a
(nonempty) dot-split path inside a document, creating intermediate documents
as needed and leaving every other field untouched. -/
def setPath (doc : Val) (path : List String) (nv : Val) : Val :=
  match doc, path with
  | d, [] => d
  | .vObj fs, [k] => .vObj (setKey fs k nv)
  | .vObj fs, k :: rest => .vObj (setKey fs k (setPath (childFor fs k) rest nv))
  | d, _ => d

/-- Modelled from MongoDB's documented update semantics: apply a `$set` update
document to a stored document, one field path at a time, in order. -/
def applySet (doc : Val) (sets : List (String × Val)) : Val :=
  sets.foldl (fun d p => setPath d (splitDot p.1) p.2) doc

/-- Filter `{ id: idv }` used by `save` / `update` / `get` / `delete`: exact
match on the `id` field. -/
def matchesId (idv : Val) (d : Val) : Bool :=
  decide (vLookup d "id" = some idv)

/-- Replacement of the first document satisfying `p` by its image under `f`
(MongoDB's `findOneAndUpdate` touches a single matching document). -/
def updateFirst (p : Val → Bool) (f : Val → Val) : List Val → List Val
  | [] => []
  | d :: rest => if p d then f d :: rest else d :: updateFirst p f rest

/-- Modelled from MongoDB's documented semantics of
`findOneAndUpdate({id: idv}, {$set: sets}, {upsert: true})`: apply the `$set`
document to the first matching document, or — when none matches — insert a new
document built from the filter's equality field and the `$set` document. -/
def findOneAndUpdateSet (col : List Val) (idv : Val) (sets : List (String × Val)) :
    List Val :=
  if col.any (matchesId idv) then
    updateFirst (matchesId idv) (fun d => applySet d sets) col
  else
    col ++ [applySet (.vObj [("id", idv)]) sets]

/-- Embedding of `save` (src/index.js lines 144-157): flatten the record with
`toDot` (default separator, no prefix) and upsert `{ $set: toDot(data) }`
keyed on `{ id: data.id }`. The record is the field list of a JS object. -/
def save (col : List Val) (data : List (String × Val)) : Except JsError (List Val) :=
  (toDot (.vObj data) "." none).map (fun sets =>
    findOneAndUpdateSet col ((lookupKey data "id").getD .vNull) sets)

/-- Embedding of `update` (src/index.js lines 169-181): upsert
`{ $set: data }` keyed on `{ id: data.id }` — the record itself is the update
document, with no flattening applied. -/
def update (col : List Val) (data : List (String × Val)) : List Val :=
  findOneAndUpdateSet col ((lookupKey data "id").getD .vNull) data

/-- Embedding of `insert` (src/index.js lines 158-167): insert the record as a
brand-new document verbatim. -/
def insertDoc (col : List Val) (data : Val) : List Val :=
  col ++ [data]

/-- Date of a history document (`Date.now()` timestamps are numbers). -/
def dateOf (d : Val) : Int :=
  match vLookup d "date" with
  | some (.vNum n) => n
  | _ => 0

/-- Comparison "later or equal" on history documents, the descending sort key
of `sort: { date: -1 }`. -/
def dateGe (a b : Val) : Prop := dateOf b ≤ dateOf a

instance : DecidableRel dateGe := fun a b =>
  inferInstanceAs (Decidable (dateOf b ≤ dateOf a))

instance : IsTotal Val dateGe := ⟨fun a b => le_total (dateOf b) (dateOf a)⟩

instance : IsTrans Val dateGe := ⟨fun _ _ _ h1 h2 => le_trans h2 h1⟩

/-- Modelled from MongoDB's documented semantics of
`find({userId: user}, {limit: n, sort: {date: -1}})` as invoked at
src/index.js line 75: the documents matching the exact-match filter, sorted
descending by `date`, capped at `n`. -/
def mongoFindHistory (col : List Val) (u : Val) (n : Nat) : List Val :=
  ((col.filter (fun d => decide (vLookup d "userId" = some u))).insertionSort
    dateGe).take n

/-- Outcome of a JS promise whose executor's callback may also throw: the
promise resolves, rejects, or the callback crashes with an uncaught exception
(in which case the promise never settles). -/
inductive PromiseOutcome (e a : Type) : Type where
  | resolved : a → PromiseOutcome e a
  | rejected : e → PromiseOutcome e a
  | crashed : JsError → PromiseOutcome e a
deriving DecidableEq, Repr

/-- Embedding of the `find` callback inside `getHistoryForUser`
(src/index.js lines 75-84), which receives `(err, history)` from the driver —
on failure `history` is `undefined` (`none`). The callback first runs
`console.log('Got history of ' + history.length)`, so when `history` is
`undefined` it crashes with a `TypeError` before the `err` check; otherwise it
rejects when `err` is set, and resolves `history.reverse()` when it is not. -/
def historyCallback {e : Type} (err : Option e) (history : Option (List Val)) :
    PromiseOutcome e (List Val) :=
  match history with
  | none => .crashed .typeError
  | some hs =>
    match err with
    | some ex => .rejected ex
    | none => .resolved hs.reverse

/-- Embedding of `getHistoryForUser(user, limit)` (src/index.js lines 70-86)
on the success path of the backing `find`: the callback is invoked with no
error and the filtered/sorted/limited documents. -/
def getHistoryForUser (col : List Val) (u : Val) (n : Nat) :
    PromiseOutcome String (List Val) :=
  historyCallback none (some (mongoFindHistory col u n))

/-- Embedding of `addToHistory(message, user)` (src/index.js lines 58-68):
build `{userId: user, message: message, date: Date.now()}` and insert it,
resolving with the constructed entry; returns the entry and the new
collection. -/
def addToHistory (col : List Val) (message user : Val) (now : Int) :
    Val × List Val :=
  let hist : Val := .vObj [("userId", user), ("message", message), ("date", .vNum now)]
  (hist, insertDoc col hist)

/-- Configuration accepted by the factory: `mongoUri` (`none` models an absent
property) and the optional `tables` array, whose entries may be arbitrary
values. (`mongoOptions` is passed through verbatim to the driver and plays no
role in any verified property.) -/
structure Config : Type where
  mongoUri : Option String
  tables : Option (List Val)

/-- JS truthiness of an optional string property: an absent property and the
empty string are falsy. -/
def jsTruthyStr : Option String → Bool
  | none => false
  | some s => s != ""

/-- Hard-coded default zone list (src/index.js line 31). -/
def defaultTables : List String := ["teams", "channels", "users", "history"]

/-- Zone list after processing `config.tables` (src/index.js lines 31-36):
string entries are appended to the defaults, non-string entries are silently
ignored. -/
def configTables (cfg : Config) : List String :=
  defaultTables ++ (cfg.tables.getD []).filterMap (fun v =>
    match v with
    | .vStr s => some s
    | _ => none)

/-- Embedding of the factory `module.exports` (src/index.js lines 12-94),
returning the list of zone names for which a store object is created: it
throws `Error('Need to provide mongo address.')` when the configuration is
absent or `config.mongoUri` is falsy, builds one store per zone, and throws
`Error('Unable to add history support!!')` when `storage.history` is absent —
that is, when `'history'` is not among the zone names. (Driver connection
errors are out of scope.) -/
def moduleExports : Option Config → Except JsError (List String)
  | none => .error (.error "Need to provide mongo address.")
  | some cfg =>
    if jsTruthyStr cfg.mongoUri = false then
      .error (.error "Need to provide mongo address.")
    else
      let tables := configTables cfg
      if "history" ∈ tables then .ok tables
      else .error (.error "Unable to add history support!!")

theorem str_empty_append (s : String) : "" ++ s = s := by
  cases s; rfl

theorem lookupKey_cons (p : String × Val) (rest : List (String × Val)) (k : String) :
    lookupKey (p :: rest) k = if p.1 = k then some p.2 else lookupKey rest k := by
  by_cases h : p.1 = k
  · simp [lookupKey, List.find?_cons_of_pos, h]
  · simp [lookupKey, List.find?_cons_of_neg, h]

theorem lookupKey_map_overwrite (fs : List (String × Val)) (k : String) (v : Val)
    (h : fs.any (fun p => p.1 = k)) :
    lookupKey (fs.map (fun p => if p.1 = k then (k, v) else p)) k = some v := by
  induction fs with
  | nil => simp at h
  | cons p rest ih =>
    by_cases hp : p.1 = k
    · simp [if_pos hp, lookupKey_cons]
    · simp only [List.any_cons, Bool.or_eq_true, decide_eq_true_eq, hp, false_or] at h
      simp [if_neg hp, lookupKey_cons, hp, ih h]

theorem lookupKey_map_overwrite_ne (fs : List (String × Val)) (k k' : String) (v : Val)
    (hne : k' ≠ k) :
    lookupKey (fs.map (fun p => if p.1 = k' then (k', v) else p)) k = lookupKey fs k := by
  induction fs with
  | nil => rfl
  | cons p rest ih =>
    by_cases hp : p.1 = k'
    · simp [if_pos hp, lookupKey_cons, hne, hp, ih]
    · simp [if_neg hp, lookupKey_cons, ih]

theorem lookupKey_append_one (fs : List (String × Val)) (k k' : String) (v : Val)
    (hne : k' ≠ k) :
    lookupKey (fs ++ [(k', v)]) k = lookupKey fs k := by
  induction fs with
  | nil => simp [lookupKey_cons, hne, lookupKey]
  | cons p rest ih =>
    by_cases hk : p.1 = k
    · simp [List.cons_append, lookupKey_cons, hk]
    · simp [List.cons_append, lookupKey_cons, hk, ih]

theorem lookupKey_setKey_self (fs : List (String × Val)) (k : String) (v : Val) :
    lookupKey (setKey fs k v) k = some v := by
  unfold setKey
  split
  case isTrue h => exact lookupKey_map_overwrite fs k v h
  case isFalse h =>
    induction fs with
    | nil => simp [lookupKey_cons, lookupKey]
    | cons p rest ih =>
      simp only [List.any_cons, Bool.or_eq_true, decide_eq_true_eq, not_or] at h
      simp [List.cons_append, lookupKey_cons, h.1, ih (by simpa using h.2)]

theorem lookupKey_setKey_ne (fs : List (String × Val)) (k k' : String) (v : Val)
    (hne : k' ≠ k) :
    lookupKey (setKey fs k' v) k = lookupKey fs k := by
  unfold setKey
  split
  · exact lookupKey_map_overwrite_ne fs k k' v hne
  · exact lookupKey_append_one fs k k' v hne

theorem vLookup_setPath_ne (doc : Val) (path : List String) (nv : Val) (k : String)
    (h : path.head? ≠ some k) :
    vLookup (setPath doc path nv) k = vLookup doc k := by
  match path with
  | [] => cases doc <;> rfl
  | [k'] =>
    have hne : k' ≠ k := fun e => h (by simp [e])
    cases doc <;> simp [setPath, vLookup, lookupKey_setKey_ne _ _ _ _ hne]
  | k' :: k2 :: rest =>
    have hne : k' ≠ k := fun e => h (by simp [e])
    cases doc <;> simp [setPath, vLookup, lookupKey_setKey_ne _ _ _ _ hne]

theorem vLookup_applySet_frame (sets : List (String × Val)) (doc : Val) (k : String)
    (h : ∀ p ∈ sets, (splitDot p.1).head? ≠ some k) :
    vLookup (applySet doc sets) k = vLookup doc k := by
  induction sets generalizing doc with
  | nil => rfl
  | cons p rest ih =>
    have h1 : (splitDot p.1).head? ≠ some k := h p (by simp)
    calc vLookup (applySet doc (p :: rest)) k
        = vLookup (applySet (setPath doc (splitDot p.1) p.2) rest) k := rfl
      _ = vLookup (setPath doc (splitDot p.1) p.2) k :=
          ih _ (fun q hq => h q (by simp [hq]))
      _ = vLookup doc k := vLookup_setPath_ne _ _ _ _ h1

/-- C1: `save` flattens the record into dot-joined leaf paths and performs an
upsert keyed on `{id: record.id}` setting only those leaf paths; a stored
field whose top-level name heads no leaf path of the update survives
unchanged; and on the spec's example, saving `{id:1, a:99}` over
`{id:1, a:1, b:2}` stores `{id:1, a:99, b:2}`. -/
theorem save_flattens_and_preserves_untouched_fields :
    (∀ (col : List Val) (data : List (String × Val)),
      save col data = (toDot (.vObj data) "." none).map (fun sets =>
        findOneAndUpdateSet col ((lookupKey data "id").getD .vNull) sets)) ∧
    (∀ (fs sets : List (String × Val)) (k : String),
      (∀ p ∈ sets, (splitDot p.1).head? ≠ some k) →
      vLookup (applySet (.vObj fs) sets) k = lookupKey fs k) ∧
    save [.vObj [("id", .vNum 1), ("a", .vNum 1), ("b", .vNum 2)]]
        [("id", .vNum 1), ("a", .vNum 99)] =
      .ok [.vObj [("id", .vNum 1), ("a", .vNum 99), ("b", .vNum 2)]] := by
  refine ⟨fun col data => rfl, fun fs sets k h => vLookup_applySet_frame sets _ k h, ?_⟩
  simp only [save, toDot, toDotObj, effectivePre, jsTypeofObject, assignAll, setKey,
    lookupKey_cons, lookupKey, findOneAndUpdateSet, matchesId, vLookup, updateFirst]
  rfl

theorem save_flattens_and_preserves_untouched_fields_witness :
    vLookup (applySet (.vObj [("b", .vNum 2)]) [("a", .vNum 99)]) "b" =
      lookupKey [("b", .vNum 2)] "b" :=
  save_flattens_and_preserves_untouched_fields.2.1 [("b", .vNum 2)] [("a", .vNum 99)] "b"
    (by decide)

/-- C4: `update` performs an upsert keyed on `{id: record.id}` whose `$set`
document is the record itself with no flattening, so a top-level field whose
name contains no dot is replaced wholesale; on the spec's example, updating
`{id:1, a:{x:99}}` over `{id:1, a:{x:1,y:2}}` stores `{id:1, a:{x:99}}` with
`y` lost. -/
theorem update_sets_top_level_wholesale :
    (∀ (col : List Val) (data : List (String × Val)),
      update col data =
        findOneAndUpdateSet col ((lookupKey data "id").getD .vNull) data) ∧
    (∀ (fs : List (String × Val)) (k : String) (v : Val),
      splitDot k = [k] →
      vLookup (applySet (.vObj fs) [(k, v)]) k = some v) ∧
    update [.vObj [("id", .vNum 1), ("a", .vObj [("x", .vNum 1), ("y", .vNum 2)])]]
        [("id", .vNum 1), ("a", .vObj [("x", .vNum 99)])] =
      [.vObj [("id", .vNum 1), ("a", .vObj [("x", .vNum 99)])]] := by
  refine ⟨fun col data => rfl, ?_, ?_⟩
  · intro fs k v hk
    show vLookup (setPath (.vObj fs) (splitDot k) v) k = some v
    rw [hk]
    simp [setPath, vLookup, lookupKey_setKey_self]
  · simp [update, findOneAndUpdateSet, matchesId, vLookup, lookupKey_cons, lookupKey,
      updateFirst, applySet, splitDot, splitOnCharAux, setPath, childFor, setKey,
      isPlainObject]

theorem update_sets_top_level_wholesale_witness :
    vLookup (applySet (.vObj [("a", .vObj [("x", .vNum 1), ("y", .vNum 2)])])
        [("a", .vObj [("x", .vNum 99)])]) "a" =
      some (.vObj [("x", .vNum 99)]) :=
  update_sets_top_level_wholesale.2.1 [("a", .vObj [("x", .vNum 1), ("y", .vNum 2)])]
    "a" (.vObj [("x", .vNum 99)]) (by decide)

theorem toDotObj_cons_obj (div pre k : String) (gs rest acc : List (String × Val)) :
    toDotObj div pre ((k, .vObj gs) :: rest) acc =
      toDotObj div pre rest (assignAll acc (toDotObj div (pre ++ k ++ div) gs [])) := by
  simp [toDotObj]

theorem toDotObj_cons_leaf (div pre k : String) (v : Val)
    (rest acc : List (String × Val)) (h : isPlainObject v = false) :
    toDotObj div pre ((k, v) :: rest) acc =
      toDotObj div pre rest (setKey acc (pre ++ k) v) := by
  cases v <;> simp_all [toDotObj, isPlainObject]

/-- C2: the flattener recurses exactly into plain-object values, joining keys
with the separator, and assigns every other value (arrays, primitives, null)
directly as a leaf under its dot-joined path; in particular
`flatten({a:{b:1,c:2}}) = {'a.b':1,'a.c':2}` and
`flatten({a:[1,2], b:null}) = {a:[1,2], b:null}`. -/
theorem toDot_recurses_plain_objects_only :
    (∀ (div pre k : String) (gs rest acc : List (String × Val)),
      toDotObj div pre ((k, .vObj gs) :: rest) acc =
        toDotObj div pre rest (assignAll acc (toDotObj div (pre ++ k ++ div) gs []))) ∧
    (∀ (div pre k : String) (v : Val) (rest acc : List (String × Val)),
      isPlainObject v = false →
      toDotObj div pre ((k, v) :: rest) acc =
        toDotObj div pre rest (setKey acc (pre ++ k) v)) ∧
    toDot (.vObj [("a", .vObj [("b", .vNum 1), ("c", .vNum 2)])]) "." none =
      .ok [("a.b", .vNum 1), ("a.c", .vNum 2)] ∧
    toDot (.vObj [("a", .vArr [.vNum 1, .vNum 2]), ("b", .vNull)]) "." none =
      .ok [("a", .vArr [.vNum 1, .vNum 2]), ("b", .vNull)] := by
  refine ⟨toDotObj_cons_obj, toDotObj_cons_leaf, ?_, ?_⟩ <;>
    simp [toDot, toDotObj, effectivePre, assignAll, setKey, jsTypeofObject]

theorem toDot_recurses_plain_objects_only_witness :
    toDotObj "." "" [("b", .vNull)] [] = toDotObj "." "" [] (setKey [] ("" ++ "b") .vNull) :=
  toDot_recurses_plain_objects_only.2.1 "." "" "b" .vNull [] [] (by decide)

/-- C5 counterexample: a top-level array is not rejected by `toDot` — JS
`typeof [1,2] === 'object'` — and flattening `[1, 2]` succeeds with index
keys, contradicting the claim that every non-object input fails with the
InvalidArgument error. -/
theorem toDot_array_accepted_cex :
    toDot (.vArr [.vNum 1, .vNum 2]) "." none = .ok [("0", .vNum 1), ("1", .vNum 2)] ∧
    ∀ e : JsError, toDot (.vArr [.vNum 1, .vNum 2]) "." none ≠ .error e := by
  have ha : arrFields [.vNum 1, .vNum 2] = [("0", .vNum 1), ("1", .vNum 2)] := rfl
  have h : toDot (.vArr [.vNum 1, .vNum 2]) "." none =
      .ok [("0", .vNum 1), ("1", .vNum 2)] := by
    simp [toDot, jsTypeofObject, ha, toDotObj, effectivePre, assignAll, setKey]
  exact ⟨h, fun e hc => by rw [h] at hc; cases hc⟩

/-- C5 amended: `toDot` throws the `'toDot requires a valid object'` error
exactly for inputs whose JS `typeof` is not `'object'` (numbers, strings,
booleans); `null` passes the `typeof` check — `typeof null === 'object'` — and
fails with a `TypeError` from `Object.keys(null)` instead; a top-level array
passes the check and is flattened with its indices as keys. -/
theorem toDot_typeof_validation :
    (∀ (n : Int) (div : String) (pre : Option String),
      toDot (.vNum n) div pre = .error (.error "toDot requires a valid object")) ∧
    (∀ (s : String) (div : String) (pre : Option String),
      toDot (.vStr s) div pre = .error (.error "toDot requires a valid object")) ∧
    (∀ (b : Bool) (div : String) (pre : Option String),
      toDot (.vBool b) div pre = .error (.error "toDot requires a valid object")) ∧
    (∀ (div : String) (pre : Option String),
      toDot .vNull div pre = .error .typeError) ∧
    (∀ (xs : List Val) (div : String) (pre : Option String),
      toDot (.vArr xs) div pre =
        .ok (toDotObj div (effectivePre pre div) (arrFields xs) [])) := by
  refine ⟨fun n div pre => rfl, fun s div pre => rfl, fun b div pre => rfl,
    fun div pre => rfl, fun xs div pre => rfl⟩

/-- C7 counterexample: with an empty-string prefix the loose JS check
`pre != null` treats the prefix as present, so `toDot({a:1}, '.', '')`
produces the key `'.a'` with a leading separator, not `'a'`. -/
theorem toDot_empty_string_prefix_cex :
    toDot (.vObj [("a", .vNum 1)]) "." (some "") = .ok [(".a", .vNum 1)] ∧
    toDot (.vObj [("a", .vNum 1)]) "." (some "") ≠ .ok [("a", .vNum 1)] := by
  constructor <;>
    simp [toDot, toDotObj, effectivePre, assignAll, setKey, jsTypeofObject]

/-- C7 amended: the flattener recurses with the accumulated path
`pre + separator + key`; the prefix is treated as empty only when it is
absent/`null` (the keys then carry no leading separator), while a present
empty-string prefix — `'' != null` holds in JS — gets the separator appended,
so the keys then do carry a leading separator. -/
theorem toDot_prefix_handling :
    (∀ (fs : List (String × Val)) (div p : String),
      toDot (.vObj fs) div (some p) = .ok (toDotObj div (p ++ div) fs [])) ∧
    (∀ (fs : List (String × Val)) (div : String),
      toDot (.vObj fs) div none = .ok (toDotObj div "" fs [])) ∧
    (∀ (div pre k : String) (gs rest acc : List (String × Val)),
      toDotObj div pre ((k, .vObj gs) :: rest) acc =
        toDotObj div pre rest (assignAll acc (toDotObj div (pre ++ k ++ div) gs []))) ∧
    toDot (.vObj [("a", .vNum 1)]) "." none = .ok [("a", .vNum 1)] ∧
    toDot (.vObj [("a", .vNum 1)]) "." (some "") = .ok [(".a", .vNum 1)] := by
  refine ⟨fun fs div p => rfl, fun fs div => rfl, toDotObj_cons_obj, ?_, ?_⟩ <;>
    simp [toDot, toDotObj, effectivePre, assignAll, setKey, jsTypeofObject]

theorem setKey_not_found (acc : List (String × Val)) (k : String) (v : Val)
    (h : acc.any (fun p => p.1 = k) = false) :
    setKey acc k v = acc ++ [(k, v)] := by
  simp [setKey, h]

theorem toDotObj_leaves (div : String) (fs acc : List (String × Val))
    (h : ∀ p ∈ fs, isPlainObject p.2 = false) :
    toDotObj div "" fs acc = assignAll acc fs := by
  induction fs generalizing acc with
  | nil => simp [toDotObj, assignAll]
  | cons p rest ih =>
    obtain ⟨k, v⟩ := p
    have hv : isPlainObject v = false := h (k, v) (by simp)
    rw [toDotObj_cons_leaf div "" k v rest acc hv, str_empty_append k,
      ih (setKey acc k v) (fun q hq => h q (List.mem_cons_of_mem _ hq))]
    simp [assignAll]

theorem assignAll_fresh (fs : List (String × Val)) :
    ∀ acc : List (String × Val),
      (∀ p ∈ fs, acc.any (fun q => q.1 = p.1) = false) →
      (fs.map Prod.fst).Nodup →
      assignAll acc fs = acc ++ fs := by
  induction fs with
  | nil => intro acc _ _; simp [assignAll]
  | cons p rest ih =>
    intro acc hdisj hnd
    obtain ⟨k, v⟩ := p
    have h1 : acc.any (fun q => q.1 = k) = false := hdisj (k, v) (by simp)
    simp only [List.map_cons, List.nodup_cons] at hnd
    have step : assignAll acc ((k, v) :: rest) = assignAll (acc ++ [(k, v)]) rest := by
      simp [assignAll, setKey_not_found acc k v h1]
    rw [step, ih (acc ++ [(k, v)]) ?_ hnd.2]
    · simp
    · intro q hq
      have hq1 : acc.any (fun r => r.1 = q.1) = false := hdisj q (by simp [hq])
      have hkq : ¬(k = q.1) := fun e => hnd.1 (e ▸ List.mem_map_of_mem Prod.fst hq)
      simp [List.any_append, hq1, hkq]

/-- C8: flattening an already-flat object (no plain-object values, unique
keys) returns its fields unchanged, hence flattening is idempotent on such
objects. -/
theorem toDot_flat_identity :
    ∀ fs : List (String × Val),
      (∀ p ∈ fs, isPlainObject p.2 = false) →
      (fs.map Prod.fst).Nodup →
      toDot (.vObj fs) "." none = .ok fs ∧
      Except.bind (toDot (.vObj fs) "." none)
        (fun gs => toDot (.vObj gs) "." none) = toDot (.vObj fs) "." none := by
  intro fs hleaf hnd
  have h1 : toDot (.vObj fs) "." none = .ok fs := by
    show Except.ok (toDotObj "." "" fs []) = .ok fs
    rw [toDotObj_leaves "." fs [] hleaf, assignAll_fresh fs [] (by simp) hnd]
    simp
  refine ⟨h1, ?_⟩
  rw [h1]
  exact h1

theorem toDot_flat_identity_witness :
    toDot (.vObj [("a", .vNum 1), ("b", .vNull)]) "." none =
      .ok [("a", .vNum 1), ("b", .vNull)] ∧
    Except.bind (toDot (.vObj [("a", .vNum 1), ("b", .vNull)]) "." none)
        (fun gs => toDot (.vObj gs) "." none) =
      toDot (.vObj [("a", .vNum 1), ("b", .vNull)]) "." none :=
  toDot_flat_identity [("a", .vNum 1), ("b", .vNull)] (by decide) (by decide)

/-- C6 is a code bug: when the backing `find` reports an error, the driver
passes `(err, undefined)` to the callback, whose first statement
`console.log('Got history of ' + history.length)` reads `.length` of
`undefined` and throws a `TypeError` before the `err` check is reached — the
promise therefore crashes instead of rejecting with the backing error. -/
theorem historyCallback_crashes_on_backing_error :
    historyCallback (some "network error") (none : Option (List Val)) =
      (.crashed .typeError : PromiseOutcome String (List Val)) ∧
    ∀ e : String,
      historyCallback (some e) (none : Option (List Val)) ≠
        (.rejected e : PromiseOutcome String (List Val)) :=
  ⟨rfl, fun _ h => PromiseOutcome.noConfusion h⟩

/-- C9: the factory throws `Error('Need to provide mongo address.')`
synchronously — before any zone store exists — when the configuration is
absent or has no `mongoUri` property. -/
theorem moduleExports_requires_mongoUri :
    moduleExports none = .error (.error "Need to provide mongo address.") ∧
    ∀ cfg : Config, cfg.mongoUri = none →
      moduleExports (some cfg) = .error (.error "Need to provide mongo address.") := by
  refine ⟨rfl, fun cfg h => ?_⟩
  simp [moduleExports, jsTruthyStr, h]

theorem moduleExports_requires_mongoUri_witness :
    moduleExports (some { mongoUri := none, tables := none }) =
      .error (.error "Need to provide mongo address.") :=
  moduleExports_requires_mongoUri.2 { mongoUri := none, tables := none } rfl

/-- C10: `'history'` is in the hard-coded default zone list regardless of
`config.tables`, so the `'Unable to add history support!!'` branch is
unreachable and construction with a truthy `mongoUri` always succeeds with a
history zone present. -/
theorem history_zone_always_present :
    (∀ oc : Option Config,
      moduleExports oc ≠ .error (.error "Unable to add history support!!")) ∧
    (∀ cfg : Config, jsTruthyStr cfg.mongoUri = true →
      ∃ ts, moduleExports (some cfg) = .ok ts ∧ "history" ∈ ts) := by
  have hmem : ∀ cfg : Config, "history" ∈ configTables cfg := by
    intro cfg
    exact List.mem_append_left _ (by simp [defaultTables])
  constructor
  · intro oc
    cases oc with
    | none => simp [moduleExports]
    | some cfg =>
      simp only [moduleExports]
      split
      · simp
      · rw [if_pos (hmem cfg)]
        simp
  · intro cfg h
    refine ⟨configTables cfg, ?_, hmem cfg⟩
    simp [moduleExports, h, hmem cfg]

theorem history_zone_always_present_witness :
    ∃ ts, moduleExports (some (Config.mk (some "mongodb://localhost/db") none)) =
      .ok ts ∧ "history" ∈ ts :=
  history_zone_always_present.2 (Config.mk (some "mongodb://localhost/db") none) rfl

/-- C3: `getHistoryForUser` filters the history zone by `userId == user`,
sorts descending by `date` capped at `limit` in the backing store, and
reverses in memory, hence resolves with at most `limit` entries of that user
in ascending date order; on the spec's example, after inserting entries at
times 1 < 2 < 3 < 4 for user U, querying with limit 2 resolves with the
entries of times 3 and 4 in that order. -/
theorem getHistoryForUser_recent_ascending :
    (∀ (col : List Val) (u : Val) (n : Nat),
      getHistoryForUser col u n =
        .resolved ((((col.filter
          (fun d => decide (vLookup d "userId" = some u))).insertionSort
            dateGe).take n).reverse)) ∧
    (∀ (col : List Val) (u : Val) (n : Nat) (l : List Val),
      getHistoryForUser col u n = .resolved l →
      l.Pairwise (fun a b => dateOf a ≤ dateOf b) ∧
      (∀ d ∈ l, vLookup d "userId" = some u) ∧
      l.length ≤ n) ∧
    (let s1 := addToHistory [] (.vStr "m1") (.vStr "U") 1
     let s2 := addToHistory s1.2 (.vStr "m2") (.vStr "U") 2
     let s3 := addToHistory s2.2 (.vStr "m3") (.vStr "U") 3
     let s4 := addToHistory s3.2 (.vStr "m4") (.vStr "U") 4
     getHistoryForUser s4.2 (.vStr "U") 2 = .resolved [s3.1, s4.1]) := by
  refine ⟨fun col u n => rfl, ?_, ?_⟩
  · intro col u n l h
    injection h with h2
    subst h2
    refine ⟨?_, ?_, ?_⟩
    · rw [List.pairwise_reverse]
      exact (List.sorted_insertionSort dateGe _).sublist (List.take_sublist n _)
    · intro d hd
      rw [List.mem_reverse] at hd
      have hd2 := List.mem_of_mem_take hd
      rw [(List.perm_insertionSort dateGe _).mem_iff] at hd2
      exact of_decide_eq_true (List.mem_filter.1 hd2).2
    · simp only [List.length_reverse]
      exact List.length_take_le n _
  · simp [getHistoryForUser, historyCallback, mongoFindHistory, addToHistory,
      insertDoc, vLookup, lookupKey_cons, lookupKey, dateGe, dateOf]

theorem getHistoryForUser_recent_ascending_witness :
    ([.vObj [("userId", .vStr "U"), ("message", .vStr "m3"), ("date", .vNum 3)],
      .vObj [("userId", .vStr "U"), ("message", .vStr "m4"), ("date", .vNum 4)]] :
        List Val).Pairwise (fun a b => dateOf a ≤ dateOf b) ∧
    (∀ d ∈ ([.vObj [("userId", .vStr "U"), ("message", .vStr "m3"), ("date", .vNum 3)],
      .vObj [("userId", .vStr "U"), ("message", .vStr "m4"), ("date", .vNum 4)]] :
        List Val), vLookup d "userId" = some (.vStr "U")) ∧
    ([.vObj [("userId", .vStr "U"), ("message", .vStr "m3"), ("date", .vNum 3)],
      .vObj [("userId", .vStr "U"), ("message", .vStr "m4"), ("date", .vNum 4)]] :
        List Val).length ≤ 2 :=
  getHistoryForUser_recent_ascending.2.1
    [.vObj [("userId", .vStr "U"), ("message", .vStr "m1"), ("date", .vNum 1)],
     .vObj [("userId", .vStr "U"), ("message", .vStr "m2"), ("date", .vNum 2)],
     .vObj [("userId", .vStr "U"), ("message", .vStr "m3"), ("date", .vNum 3)],
     .vObj [("userId", .vStr "U"), ("message", .vStr "m4"), ("date", .vNum 4)]]
    (.vStr "U") 2
    [.vObj [("userId", .vStr "U"), ("message", .vStr "m3"), ("date", .vNum 3)],
     .vObj [("userId", .vStr "U"), ("message", .vStr "m4"), ("date", .vNum 4)]]
    (by simp [getHistoryForUser, historyCallback, mongoFindHistory, vLookup,
      lookupKey_cons, lookupKey, dateGe, dateOf])

end BotkitMongo
